import Mathlib

/-!
# Verification of the fido configuration loader core

A shallow embedding of the fido aggregation engine (`fido.go`, `field.go`,
`errors.go`, `tag.go` and the modelled `providers` priority table), together
with proofs settling the frozen claims about it.

Representation choices:
* Go `reflect` destination slots are modelled by a type tag (`Ty`), a current
  value (`Val`) and a settability flag; floating-point destination slots are
  outside the modelled universe (float *inputs* are modelled opaquely, since
  the engine never inspects their numeric payload on the claims' paths).
* Go's in-place mutation of a slot is modelled by returning the new slot
  value on success; the source writes the destination exactly once, at the
  end of a successful coercion, so a failed call leaves the slot untouched
  in both the source and the model.
* Go `int` is identified with `int64` (both 64-bit).
-/

set_option autoImplicit false

namespace FidoSpec

/-- Go types of destination slots and of runtime values, as dispatched on by
`setValue` via `reflect.Kind`.  `otherT` stands for every kind the engine's
switch does not name (bool, struct, chan, func, ...), which all fall into the
`default` branch of `setValue`. -/
inductive Ty where
  | str
  | intT (bits : Nat)
  | uintT (bits : Nat)
  | sliceT (elem : Ty)
  | mapT (key elem : Ty)
  | otherT
  deriving DecidableEq, Repr

/-- Go runtime values (the `interface{}` inputs handed to the engine and the
contents of destination slots).  `stringer s` is a value of some foreign type
implementing `fmt.Stringer` whose `String()` method returns `s`; `floatV`
carries only its literal (the engine never reads a float payload on a string
destination); `otherV` is any other value with no display-text capability.
Map keys are textual in every modelled scenario; the declared key type is
kept in the value so the key-kind check of `initMap` can be expressed. -/
inductive Val where
  | str (s : String)
  | boolV (b : Bool)
  | intV (bits : Nat) (v : Int)
  | uintV (bits : Nat) (v : Nat)
  | floatV (lit : String)
  | sliceV (elemTy : Ty) (xs : List Val)
  | mapNil (key elem : Ty)
  | mapV (key elem : Ty) (entries : List (String × Val))
  | stringer (s : String)
  | otherV
  deriving Repr

/-- The sentinel errors of `errors.go`, plus `wrap`, which models
`fmt.Errorf("%w: ...", err, ...)`, and `nonErrPanic`, which models the
`NonErrPanic` carrier preserving the recovered non-error value. -/
inductive FErr where
  | destinationTypeInvalid
  | destinationNil
  | destinationNotPtr
  | structTagNotFound
  | invalidPath
  | fieldNotFound
  | expectedMap
  | invalidMapKeyType
  | notAddressable
  | notSetable
  | setInvalidType
  | setInvalidValue
  | setOverflow
  | nonErrPanic (v : Val)
  | canceled
  | wrap (inner : FErr) (msg : String)
  deriving Repr

mutual

/-- Structural equality of values, modelling the Go `==` on `interface\x7b\x7d`
operands used by the callback's no-op check.  (Go panics when the shared
dynamic type is a slice or map; no claim exercises such a comparison, and the
model makes it a plain structural test.) -/
def valEq : Val → Val → Bool
  | .str a, .str b => a == b
  | .boolV a, .boolV b => a == b
  | .intV ba a, .intV bb b => ba == bb && a == b
  | .uintV ba a, .uintV bb b => ba == bb && a == b
  | .floatV a, .floatV b => a == b
  | .sliceV ta xs, .sliceV tb ys => ta == tb && valEqList xs ys
  | .mapNil ka ea, .mapNil kb eb => ka == kb && ea == eb
  | .mapV ka ea xs, .mapV kb eb ys => ka == kb && ea == eb && valEqEntries xs ys
  | .stringer a, .stringer b => a == b
  | .otherV, .otherV => true
  | _, _ => false

/-- Element-wise equality of value lists, used by `valEq` on slices. -/
def valEqList : List Val → List Val → Bool
  | [], [] => true
  | x :: xs, y :: ys => valEq x y && valEqList xs ys
  | _, _ => false

/-- Entry-wise equality of map entry lists, used by `valEq` on maps. -/
def valEqEntries : List (String × Val) → List (String × Val) → Bool
  | [], [] => true
  | (k, x) :: xs, (l, y) :: ys => k == l && valEq x y && valEqEntries xs ys
  | _, _ => false

end

/-- Structural equality of errors (the `err == target` step of `errors.Is`;
wrapped errors produced by `fmt.Errorf` compare by pointer in Go, which the
structural test over-approximates — every claim only matches against
sentinel targets, where the two coincide). -/
def ferrEq : FErr → FErr → Bool
  | .destinationTypeInvalid, .destinationTypeInvalid => true
  | .destinationNil, .destinationNil => true
  | .destinationNotPtr, .destinationNotPtr => true
  | .structTagNotFound, .structTagNotFound => true
  | .invalidPath, .invalidPath => true
  | .fieldNotFound, .fieldNotFound => true
  | .expectedMap, .expectedMap => true
  | .invalidMapKeyType, .invalidMapKeyType => true
  | .notAddressable, .notAddressable => true
  | .notSetable, .notSetable => true
  | .setInvalidType, .setInvalidType => true
  | .setInvalidValue, .setInvalidValue => true
  | .setOverflow, .setOverflow => true
  | .nonErrPanic a, .nonErrPanic b => valEq a b
  | .canceled, .canceled => true
  | .wrap a ma, .wrap b mb => ferrEq a b && ma == mb
  | _, _ => false

/-- `errors.Is` on the modelled errors: an error matches a target when it
equals the target or wraps something that matches it. -/
def errIs (e target : FErr) : Bool :=
  ferrEq e target ||
    match e with
    | .wrap inner _ => errIs inner target
    | _ => false

/-- Accumulate base-10 digits; any non-digit character fails, as in
`strconv`'s base-10 parser. -/
def decDigitsAux : List Char → Nat → Option Nat
  | [], acc => some acc
  | c :: cs, acc =>
      if c.isDigit then decDigitsAux cs (10 * acc + (c.toNat - 48)) else none

/-- `strconv.ParseUint(s, 10, 64)`: digits only (no sign), empty input and
values outside 64 bits fail.  Both failure modes are collapsed, since
`setValueToUint` maps every parse error to `ErrSetInvalidValue`. -/
def goParseUint (s : String) : Option Nat :=
  match s.data with
  | [] => none
  | cs =>
      match decDigitsAux cs 0 with
      | none => none
      | some n => if n < 2 ^ 64 then some n else none

/-- `strconv.ParseInt(s, 10, 64)`: an optional sign followed by digits;
empty digit strings and values outside the signed 64-bit range fail. -/
def goParseInt (s : String) : Option Int :=
  let signed : Bool × List Char :=
    match s.data with
    | '-' :: cs => (true, cs)
    | '+' :: cs => (false, cs)
    | cs => (false, cs)
  match signed.2 with
  | [] => none
  | cs =>
      match decDigitsAux cs 0 with
      | none => none
      | some n =>
          let v : Int := if signed.1 then -(n : Int) else (n : Int)
          if -(2 : Int) ^ 63 ≤ v ∧ v ≤ 2 ^ 63 - 1 then some v else none

/-- `reflect.Value.OverflowInt` for a signed destination of width `bits`. -/
def overflowInt (bits : Nat) (v : Int) : Bool :=
  decide (v < -(2 : Int) ^ (bits - 1) ∨ (2 : Int) ^ (bits - 1) - 1 < v)

/-- `reflect.Value.OverflowUint` for an unsigned destination of width `bits`. -/
def overflowUint (bits : Nat) (v : Nat) : Bool :=
  decide (2 ^ bits - 1 < v)

/-- `strconv.FormatInt(v, 10)` (Lean's decimal rendering of `Int` agrees). -/
def formatInt (v : Int) : String := toString v

/-- `setValueToString` from `field.go`: accepts text, bool and every integer
width, otherwise falls back to the `fmt.Stringer` capability. -/
def setValueToString (canSet : Bool) (tv : Val) : Except FErr Val :=
  if !canSet then .error .notSetable
  else
    match tv with
    | .str s => .ok (.str s)
    | .boolV b => .ok (.str (if b then "true" else "false"))
    | .intV _ v => .ok (.str (formatInt v))
    | .uintV _ v => .ok (.str (toString v))
    | .stringer s => .ok (.str s)
    | _ => .error (.wrap .setInvalidType "cannot set to kind string")

/-- `setValueToInt` from `field.go`. -/
def setValueToInt (bits : Nat) (canSet : Bool) (tv : Val) : Except FErr Val :=
  if !canSet then .error .notSetable
  else
    match tv with
    | .str s =>
        match goParseInt s with
        | none => .error (.wrap .setInvalidValue "could not convert to int64")
        | some v =>
            if overflowInt bits v then .error (.wrap .setOverflow "int")
            else .ok (.intV bits v)
    | .intV _ v =>
        if overflowInt bits v then .error (.wrap .setOverflow "int")
        else .ok (.intV bits v)
    | _ => .error (.wrap .setInvalidType "cannot set to kind int")

/-- `setValueToUint` from `field.go`. -/
def setValueToUint (bits : Nat) (canSet : Bool) (tv : Val) : Except FErr Val :=
  if !canSet then .error .notSetable
  else
    match tv with
    | .str s =>
        match goParseUint s with
        | none => .error (.wrap .setInvalidValue "could not convert to uint64")
        | some v =>
            if overflowUint bits v then .error (.wrap .setOverflow "uint")
            else .ok (.uintV bits v)
    | .uintV _ v =>
        if overflowUint bits v then .error (.wrap .setOverflow "uint")
        else .ok (.uintV bits v)
    | _ => .error (.wrap .setInvalidType "cannot set to kind uint")

mutual

/-- `setValue` from `field.go`: dispatch on the destination slot's kind.
Pointer indirection is not modelled (no claim involves a pointer slot);
map-kind and unknown-kind destinations hit the `default` branch. -/
def setValue : Ty → Bool → Val → Except FErr Val
  | .str, canSet, tv => setValueToString canSet tv
  | .intT bits, canSet, tv => setValueToInt bits canSet tv
  | .uintT bits, canSet, tv => setValueToUint bits canSet tv
  | .sliceT elem, canSet, tv => setValueToSlice elem canSet tv
  | .mapT _ _, _, _ => .error (.wrap .setInvalidType "could not set kind map")
  | .otherT, _, _ => .error (.wrap .setInvalidType "could not set kind")
termination_by _t _c v => (sizeOf v, 2)

/-- `setValueToSlice` from `field.go`: the input must itself be a sequence;
every element is coerced into a fresh slot of the destination's element type
and the destination receives the new sequence only after every element
succeeded. -/
def setValueToSlice (elem : Ty) (canSet : Bool) (tv : Val) : Except FErr Val :=
  if !canSet then .error .notSetable
  else
    match tv with
    | .sliceV _ xs =>
        match setSliceElems elem xs with
        | .error e => .error e
        | .ok ys => .ok (.sliceV elem ys)
    | _ => .error (.wrap .setInvalidType "expected array or slice")
termination_by (sizeOf tv, 1)

/-- The element loop of `setValueToSlice`: each element is coerced through
`setValue` into a fresh settable slot (`reflect.New(elem).Elem()`); the first
failure aborts the whole assignment. -/
def setSliceElems (elem : Ty) : List Val → Except FErr (List Val)
  | [] => .ok []
  | x :: xs =>
      match setValue elem true x with
      | .error e => .error e
      | .ok y =>
          match setSliceElems elem xs with
          | .error e => .error e
          | .ok ys => .ok (y :: ys)
termination_by xs => (sizeOf xs, 0)

end

/-- A `Path` is an ordered sequence of string segments (`type Path []string`). -/
abbrev Path := List String

/-- `Path.key()`: the canonical joined-string registry key
(`strings.Join(p, ".")`). -/
def pathKey (p : Path) : String := String.intercalate "." p

/-- `Path.equal`: same length and identical segments in order. -/
def pathEqual : Path → Path → Bool
  | [], [] => true
  | x :: xs, y :: ys => x == y && pathEqual xs ys
  | _, _ => false

/-- A provider's opaque identity (reference equality in Go). -/
abbrev ProviderId := Nat

/-- A registry entry: `field` from `field.go`, with the `mapfield`
specialisation folded in as the optional `mapDst`.  A Go `mapfield` holds a
direct reference to the destination map and the index key to assign on every
successful write; the reference is modelled as the registry key of the
ancestor field whose slot holds the root destination map, together with the
key path from that root map down to the referenced map. -/
structure FieldRec where
  path : Path
  ty : Ty
  val : Val
  settable : Bool
  provider : Option ProviderId
  mapDst : Option (String × Path × String) := none
  deriving Repr

/-- The path registry `fields`: a key-value map modelled as an association
list without duplicate keys. -/
abbrev Fields := List (String × FieldRec)

/-- Insert/overwrite at a canonical key. -/
def fieldsSetKey (fs : Fields) (k : String) (f : FieldRec) : Fields :=
  (k, f) :: fs.filter (fun kv => kv.1 != k)

/-- `fields.set`: unconditional insert/overwrite at the path's key. -/
def fieldsSet (fs : Fields) (p : Path) (f : FieldRec) : Fields :=
  fieldsSetKey fs (pathKey p) f

/-- `fields.get` from `field.go`, additionally exposing the registry key at
which the match was found (in Go the caller holds a reference to the stored
`Field`, so later in-place mutations need no key; the model writes back
through the key instead). -/
def fieldsGetEntry (fs : Fields) (p : Path) : Option (String × FieldRec) :=
  match fs.lookup (pathKey p) with
  | some f => some (pathKey p, f)
  | none =>
      if hp : p = [] then none
      else
        if p.dropLast = [] then none
        else fieldsGetEntry fs p.dropLast
termination_by p.length
decreasing_by
  simp only [List.length_dropLast]
  have h : 0 < p.length := List.length_pos.mpr hp
  omega

/-- `fields.get` with the source's signature. -/
def fieldsGet (fs : Fields) (p : Path) : Option FieldRec :=
  (fieldsGetEntry fs p).map Prod.snd

/-- Spec-side lookup for C4, written from the claim's words rather than the
source: try the leading portions of the path from length `i` down to length
1 — the nearest registered ancestor — and report not-found once the path is
empty. -/
def claimLookupLen (fs : Fields) (p : Path) : Nat → Option (String × FieldRec)
  | 0 => none
  | i + 1 =>
      match fs.lookup (pathKey (p.take (i + 1))) with
      | some f => some (pathKey (p.take (i + 1)), f)
      | none => claimLookupLen fs p i

/-- Spec-side lookup for C4: the Field registered at the exact path if
present, otherwise the nearest registered strict ancestor. -/
def claimGet (fs : Fields) (p : Path) : Option (String × FieldRec) :=
  match fs.lookup (pathKey p) with
  | some f => some (pathKey p, f)
  | none => claimLookupLen fs p (p.length - 1)

/-- Dropping the appended last segment does not change the candidates tried by
the spec-side lookup at lengths within the shorter path. -/
theorem claimLookupLen_append (fs : Fields) (xs : Path) (x : String) :
    ∀ i, i ≤ xs.length → claimLookupLen fs (xs ++ [x]) i = claimLookupLen fs xs i
  | 0, _ => rfl
  | i + 1, h => by
      have ht : (xs ++ [x]).take (i + 1) = xs.take (i + 1) :=
        List.take_append_of_le_length h
      simp only [claimLookupLen, ht]
      cases fs.lookup (pathKey (xs.take (i + 1))) with
      | none => exact claimLookupLen_append fs xs x i (Nat.le_of_succ_le h)
      | some f => rfl

/-- C4: for every registry state and every path, registry lookup returns the
Field registered at the exact path if present, otherwise the Field found
after repeatedly dropping the last segment (the nearest registered
ancestor), and not-found once the path becomes empty. -/
theorem c4_get_nearest_registered_ancestor (fs : Fields) (p : Path) :
    fieldsGetEntry fs p = claimGet fs p := by
  induction p using List.reverseRecOn with
  | nil =>
      rw [fieldsGetEntry]
      cases h : fs.lookup (pathKey []) with
      | some f => simp [claimGet, h]
      | none => simp [claimGet, h, claimLookupLen]
  | append_singleton xs x ih =>
      rw [fieldsGetEntry]
      cases h : fs.lookup (pathKey (xs ++ [x])) with
      | some f => simp [claimGet, h]
      | none =>
          have hne : xs ++ [x] ≠ [] := by simp
          rw [dif_neg hne, List.dropLast_concat]
          cases xs with
          | nil =>
              simp only [List.nil_append] at h
              simp [claimGet, h, claimLookupLen]
          | cons y ys =>
              have hxs : (y :: ys) ≠ ([] : Path) := by simp
              rw [if_neg hxs, ih]
              have hlen : ((y :: ys) ++ [x]).length - 1 = ys.length + 1 := by
                simp
              conv_rhs => rw [claimGet, h, hlen, claimLookupLen]
              have htake : ((y :: ys) ++ [x]).take (ys.length + 1) = y :: ys := by
                simp
              rw [htake,
                claimLookupLen_append fs (y :: ys) x ys.length (by simp)]
              rw [claimGet]
              cases hl : fs.lookup (pathKey (y :: ys)) with
              | some f => rfl
              | none => simp

/-- Smoke test for the registry model: registering only "a.b" and querying
"a.b.c" resolves to the Field at "a.b"; the empty path over an empty
registry is not found. -/
theorem fieldsGet_ancestor_example (f : FieldRec) :
    fieldsGet (fieldsSet [] ["a", "b"] f) ["a", "b", "c"] = some f ∧
      fieldsGet [] [] = none := by
  constructor
  · rw [fieldsGet, fieldsGetEntry]
    simp only [fieldsSet, fieldsSetKey, pathKey, List.filter, List.lookup]
    norm_num
    rw [fieldsGetEntry]
    simp only [pathKey, List.lookup]
    have hb :
        (".".intercalate ["a", "b", "c"] == ".".intercalate ["a", "b"]) = false := by
      decide
    rw [hb]
    exact ⟨".".intercalate ["a", "b"], rfl⟩
  · rw [fieldsGet, fieldsGetEntry]
    rfl

/-- `Options` from `fido.go`. -/
structure Options where
  autoWatch : Bool
  autoUpdate : Bool
  enforcePriority : Bool
  structTag : String
  errorOnFieldNotFound : Bool
  errorOnMissingTag : Bool
  deriving Repr

/-- `DefaultOptions` from `fido.go`. -/
def DefaultOptions : Options :=
  { autoWatch := true
    autoUpdate := true
    enforcePriority := true
    errorOnMissingTag := true
    errorOnFieldNotFound := false
    structTag := "fido" }

/-- Modelled from the spec: the `providers` priority table implementation is
not among the source files (only its test `Test_providers_priority` and its
uses in `fido.go` are).  Spec §4.4: `add(provider)` is idempotent and
assigns rank = current count + 1 the first time a given provider identity is
seen.  The table is the list of provider identities in first-add order; a
provider's rank is its position + 1. -/
def providersAdd (t : List ProviderId) (p : ProviderId) : List ProviderId :=
  if p ∈ t then t else t ++ [p]

/-- Rank search starting from a given rank: the head of the table carries
`rank`, each step deeper adds one. -/
def priorityFrom : List ProviderId → ProviderId → Nat → Nat
  | [], _, _ => 0
  | q :: t, p, rank => if q = p then rank else priorityFrom t p (rank + 1)

/-- Modelled from the spec: `providers.priority` — first-add rank, 0 for a
provider never added (rank 0 is reserved to mean "never registered"). -/
def providersPriority (t : List ProviderId) (p : ProviderId) : Nat :=
  priorityFrom t p 1

/-- Add a batch of providers in order (`Fido.Add`). -/
def providersAddAll (t : List ProviderId) (ps : List ProviderId) : List ProviderId :=
  ps.foldl providersAdd t

/-- `reflect.New(t).Elem()`: an addressable zero value of a type (nil for
maps and the empty value for slices). -/
def tyZero : Ty → Val
  | .str => .str ""
  | .intT b => .intV b 0
  | .uintT b => .uintV b 0
  | .sliceT e => .sliceV e []
  | .mapT k e => .mapNil k e
  | .otherT => .otherV

/-- `reflect.Value.SetMapIndex` on a map's entry list: update in place or
insert at the end. -/
def mapIndexSet : List (String × Val) → String → Val → List (String × Val)
  | [], k, v => [(k, v)]
  | (k', v') :: es, k, v =>
      if k' == k then (k, v) :: es else (k', v') :: mapIndexSet es k v

/-- Write through a Go map reference: descend from the root map along the
recorded key path and set the index key there.  A dangling path leaves the
value unchanged (unreachable for paths produced by `initMap`). -/
def mapSetAt : Val → Path → String → Val → Val
  | .mapV key elem es, [], idx, v => .mapV key elem (mapIndexSet es idx v)
  | .mapV key elem es, k :: ks, idx, v =>
      match es.lookup k with
      | some inner => .mapV key elem (mapIndexSet es k (mapSetAt inner ks idx v))
      | none => .mapV key elem es
  | v, _, _, _ => v

/-- `field.Value().Kind() == reflect.Map` on the slot's declared type. -/
def Ty.isMapT : Ty → Bool
  | .mapT _ _ => true
  | _ => false

mutual

/-- `initMap` from `fido.go`.  The Go function receives a `reflect.Value`
holding a (possibly nil) map and returns a reference to the innermost map it
reached; the model threads the updated root map value and returns, in place
of the Go reference, the key path from the root map to the returned map plus
that map's element type (`mv.Type().Elem()`, read off the reference by the
caller in Go). -/
def initMap (path : Path) (v : Val) (addressable : Bool) :
    Except FErr (Val × Path × Ty) :=
  -- Ensure we have a map
  match v with
  | .mapNil key elem =>
      -- the value is nil: initialise a new map of the correct types
      if key ≠ .str then .error (.wrap .invalidMapKeyType (pathKey path))
      else if !addressable then
        .error (.wrap .notAddressable "cannot initialise map")
      else initMapNonNil path key elem []
  | .mapV key elem entries => initMapNonNil path key elem entries
  | _ => .error (.wrap .expectedMap (pathKey path))

/-- The part of `initMap` that runs once the value is a non-nil map: recurse
through nested map element types, allocating missing inner maps. -/
def initMapNonNil (path : Path) (key elem : Ty) (entries : List (String × Val)) :
    Except FErr (Val × Path × Ty) :=
  match elem with
  | .mapT ikey ielem =>
      -- nested map: need a parent segment and at least one more
      if path.length ≤ 1 then
        .error (.wrap .invalidPath "cannot initialise nested map")
      else
        match path with
        | [] => .error (.wrap .invalidPath "cannot initialise nested map")
        | parent :: children =>
            -- value.MapIndex(parent); missing index: a fresh addressable
            -- zero value of the element type (a nil map)
            let m := entries.lookup parent
            let fresh := m.isNone
            let mv := m.getD (tyZero (.mapT ikey ielem))
            match initMap children mv fresh with
            | .error e => .error e
            | .ok (mv', keys, ty) =>
                .ok (.mapV key (.mapT ikey ielem)
                      (mapIndexSet entries parent mv'),
                    parent :: keys, ty)
  | _ =>
      -- Return the map for index value setting
      .ok (.mapV key elem entries, [], elem)

end

/-- `initMapField` from `fido.go`: `mp := path[len(fld.Path())-1:]` (note
the `- 1`: the slice retains the final segment of the matched ancestor's own
path), materialise the map chain starting from the ancestor's slot, and
register a `mapfield` at the full requested path: a fresh zero slot of the
innermost map's element type, the reference to the materialised inner map
(root registry key plus key path), and `mp`'s last segment as index key.
The ancestor's slot, mutated in place through the reference in Go, is
written back at the registry key where it was found. -/
def initMapField (fs : Fields) (foundKey : String) (fld : FieldRec)
    (path : Path) : Except FErr Fields :=
  let mp := path.drop (fld.path.length - 1)
  match initMap mp fld.val fld.settable with
  | .error e => .error e
  | .ok (rootVal, keys, elemTy) =>
      let fs' := fieldsSetKey fs foundKey { fld with val := rootVal }
      .ok (fieldsSet fs' path
        { path := path
          ty := elemTy
          val := tyZero elemTy
          settable := true
          provider := none
          mapDst := some (foundKey, keys, mp.getLastD "") })

/-- `field.Set` / `mapfield.Set` from `field.go`: coerce into the slot
(wrapping a coercion error), record the writing provider on success; a
`mapfield` additionally assigns the freshly coerced slot value into the
destination map at its index key (`dst.SetMapIndex(f.idx, f.value)`),
modelled by writing through the stored root-key/key-path reference. -/
def fieldRecSet (fs : Fields) (foundKey : String) (fld : FieldRec) (tv : Val)
    (prov : ProviderId) : Except FErr Fields :=
  match setValue fld.ty fld.settable tv with
  | .error e => .error (.wrap e "cannot set")
  | .ok newVal =>
      let fld' := { fld with val := newVal, provider := some prov }
      let fs' := fieldsSetKey fs foundKey fld'
      match fld.mapDst with
      | none => .ok fs'
      | some (rootKey, keys, idx) =>
          match fs'.lookup rootKey with
          | none => .ok fs'
          | some root =>
              .ok (fieldsSetKey fs' rootKey
                { root with val := mapSetAt root.val keys idx newVal })

/-- A Field Update record (`FieldUpdate`): `New` holds the raw incoming
value, `Old` the previous slot value, as in the source. -/
structure FieldUpdate where
  path : Path
  old : Val
  new : Val
  provider : ProviderId
  deriving Repr

/-- Lines 410–419 of `fido.go`: once the priority gate has passed, run the
coercion (wrapping its error with the path) and enqueue a Field Update. -/
def applyWrite (prov : ProviderId) (fs : Fields) (foundKey : String)
    (fld : FieldRec) (path : Path) (value current : Val) :
    Except FErr (Fields × Option FieldUpdate) :=
  match fieldRecSet fs foundKey fld value prov with
  | .error e => .error (.wrap e (pathKey path))
  | .ok fs' =>
      .ok (fs', some { path := path, old := current, new := value,
                       provider := prov })

/-- Measure for the callback's `for` loop: 0 once the registry holds an
entry at exactly the requested path whose recorded path equals the request
(the state right after a materialisation), else 1. -/
def callbackMeasure (fs : Fields) (path : Path) : Nat :=
  match fs.lookup (pathKey path) with
  | some g => if pathEqual g.path path then 0 else 1
  | none => 1

/-- Exact-key lookups short-circuit `fields.get`. -/
theorem fieldsGetEntry_exact (fs : Fields) (p : Path) (g : FieldRec)
    (h : fs.lookup (pathKey p) = some g) :
    fieldsGetEntry fs p = some (pathKey p, g) := by
  rw [fieldsGetEntry, h]

/-- Inserting at a key makes it the key's binding. -/
theorem lookup_fieldsSetKey_self (fs : Fields) (k : String) (f : FieldRec) :
    (fieldsSetKey fs k f).lookup k = some f := by
  simp [fieldsSetKey, List.lookup]

/-- `pathEqual` is reflexive. -/
theorem pathEqual_refl (p : Path) : pathEqual p p = true := by
  induction p with
  | nil => rfl
  | cons x xs ih => simp [pathEqual, ih]

/-- A successful `initMapField` registers, at exactly the requested path, an
entry whose recorded path is that path. -/
theorem initMapField_registers (fs : Fields) (foundKey : String)
    (fld : FieldRec) (path : Path) (fs' : Fields)
    (h : initMapField fs foundKey fld path = .ok fs') :
    callbackMeasure fs' path = 0 := by
  rw [initMapField] at h
  cases hm : initMap (path.drop (fld.path.length - 1)) fld.val fld.settable with
  | error e => rw [hm] at h; exact absurd h (by simp)
  | ok triple =>
      obtain ⟨rootVal, keys, elemTy⟩ := triple
      rw [hm] at h
      simp only [Except.ok.injEq] at h
      subst h
      rw [callbackMeasure, fieldsSet, lookup_fieldsSetKey_self]
      simp [pathEqual_refl]

/-- The resolution callback from `fido.go` (`Fido.callback`), for one
(path, value) pair.  The `for` loop re-enters only after a successful
materialisation, which registers an exact match at the requested path, so
the loop runs at most twice. -/
def callbackGo (opts : Options) (table : List ProviderId) (prov : ProviderId)
    (fs : Fields) (path : Path) (value : Val) :
    Except FErr (Fields × Option FieldUpdate) :=
  match hget : fieldsGetEntry fs path with
  | none =>
      if opts.errorOnFieldNotFound then
        .error (.wrap .fieldNotFound (pathKey path))
      else .ok (fs, none)
  | some (foundKey, fld) =>
      if hbranch : (!pathEqual fld.path path && fld.ty.isMapT) = true then
        match hinit : initMapField fs foundKey fld path with
        | .error e => .error e
        | .ok fs' => callbackGo opts table prov fs' path value
      else
        let current := fld.val
        if !valEq value current then
          if (match fld.provider with
              | some r =>
                  opts.enforcePriority &&
                    providersPriority table r > providersPriority table prov
              | none => false) then
            .ok (fs, none)
          else applyWrite prov fs foundKey fld path value current
        else .ok (fs, none)
termination_by callbackMeasure fs path
decreasing_by
  have h0 : callbackMeasure fs' path = 0 :=
    initMapField_registers fs foundKey fld path fs' hinit
  have h1 : callbackMeasure fs path = 1 := by
    rw [callbackMeasure]
    cases hl : fs.lookup (pathKey path) with
    | none => rfl
    | some g =>
        have : fieldsGetEntry fs path = some (pathKey path, g) :=
          fieldsGetEntry_exact fs path g hl
        rw [this] at hget
        obtain ⟨hk, hf⟩ := Prod.mk.injEq .. ▸ (Option.some.injEq _ _ ▸ hget)
        simp only [Bool.and_eq_true, Bool.not_eq_eq_eq_not, Bool.not_true] at hbranch
        rw [hf]
        simp [hbranch.1]
  omega

/-- Unfolding lemma for `callbackGo` with a plain (non-dependent) match, for
use in rewriting. -/
theorem callbackGo_eq (opts : Options) (table : List ProviderId)
    (prov : ProviderId) (fs : Fields) (path : Path) (value : Val) :
    callbackGo opts table prov fs path value =
      match fieldsGetEntry fs path with
      | none =>
          if opts.errorOnFieldNotFound then
            .error (.wrap .fieldNotFound (pathKey path))
          else .ok (fs, none)
      | some (foundKey, fld) =>
          if (!pathEqual fld.path path && fld.ty.isMapT) then
            match initMapField fs foundKey fld path with
            | .error e => .error e
            | .ok fs' => callbackGo opts table prov fs' path value
          else
            if !valEq value fld.val then
              if (match fld.provider with
                  | some r =>
                      opts.enforcePriority &&
                        providersPriority table r > providersPriority table prov
                  | none => false) then
                .ok (fs, none)
              else applyWrite prov fs foundKey fld path value fld.val
            else .ok (fs, none) := by
  rw [callbackGo]
  split
  next heq => rw [heq]
  next foundKey fld heq =>
      simp only [heq]
      split
      next hb =>
          split
          next e hinit => rw [hinit]
          next fs' hinit => rw [hinit]
      next hb => rfl

/-- An exact match whose recorded path equals the request bypasses the map
branch and runs the no-op check, the priority gate and the write. -/
theorem callbackGo_exact (opts : Options) (table : List ProviderId)
    (prov : ProviderId) (fs : Fields) (p : Path) (v : Val) (fld : FieldRec)
    (hexact : fs.lookup (pathKey p) = some fld) (hpath : fld.path = p) :
    callbackGo opts table prov fs p v =
      if !valEq v fld.val then
        if (match fld.provider with
            | some r =>
                opts.enforcePriority &&
                  providersPriority table r > providersPriority table prov
            | none => false) then
          .ok (fs, none)
        else applyWrite prov fs (pathKey p) fld p v fld.val
      else .ok (fs, none) := by
  rw [callbackGo_eq, fieldsGetEntry_exact fs p fld hexact]
  have hpe : pathEqual fld.path p = true := by rw [hpath]; exact pathEqual_refl p
  simp only [hpe, Bool.not_true, Bool.false_and, Bool.false_eq_true, if_false]

/-- C2: during a fetch with priority enforcement enabled, for a Field
registered at the written path, (a) a write by a provider strictly
outranked by the Field's current owning provider is dropped silently — no
error, no Field Update, registry (hence value and owner) unchanged; (b) a
Field with no owning provider never trips the gate: a differing value
proceeds to the coercion step; (c) a writer whose priority is at least the
owner's likewise proceeds to the coercion step. -/
theorem c2_priority_enforcement_gate (opts : Options) (table : List ProviderId)
    (q : ProviderId) (fs : Fields) (p : Path) (v : Val) (fld : FieldRec)
    (henf : opts.enforcePriority = true)
    (hexact : fs.lookup (pathKey p) = some fld)
    (hpath : fld.path = p) :
    (∀ r, fld.provider = some r →
      providersPriority table r > providersPriority table q →
      callbackGo opts table q fs p v = .ok (fs, none)) ∧
    (fld.provider = none → valEq v fld.val = false →
      callbackGo opts table q fs p v =
        applyWrite q fs (pathKey p) fld p v fld.val) ∧
    (∀ r, fld.provider = some r →
      providersPriority table r ≤ providersPriority table q →
      valEq v fld.val = false →
      callbackGo opts table q fs p v =
        applyWrite q fs (pathKey p) fld p v fld.val) := by
  rw [callbackGo_exact opts table q fs p v fld hexact hpath]
  refine ⟨?_, ?_, ?_⟩
  · intro r hr hgt
    cases hv : valEq v fld.val with
    | true => simp [hv]
    | false => simp [hv, hr, henf, hgt]
  · intro hr hv
    simp [hv, hr]
  · intro r hr hle hv
    have hd : decide (providersPriority table r > providersPriority table q) = false := by
      simp
      omega
    simp [hv, hr, henf, hd]

/-- Concrete field for the C2 witness: owned by provider 2, holding "b". -/
def c2Fld : FieldRec :=
  { path := ["p"], ty := .str, val := .str "b", settable := true,
    provider := some 2, mapDst := none }

/-- Concrete one-entry registry for the C2 witness. -/
def c2Fs : Fields := [("p", c2Fld)]

/-- Witness for C2 at a concrete input: providers 1 and 2 with priorities 1
and 2; the field at "p" is owned by provider 2 and holds "b"; provider 1's
write of "w" is dropped with no error, no update and no state change. -/
theorem c2_priority_enforcement_gate_witness :
    callbackGo DefaultOptions [1, 2] 1 c2Fs ["p"] (.str "w") =
      .ok (c2Fs, none) :=
  (c2_priority_enforcement_gate DefaultOptions [1, 2] 1 c2Fs ["p"]
    (.str "w") c2Fld rfl rfl rfl).1 2 rfl (by decide)

/-- C5: a fetched write of a value equal to the one a Field currently holds
(at its exactly registered path) produces no Field Update, no error, and
leaves the registry — in particular the Field's stored value and its owning
provider — unchanged. -/
theorem c5_equal_value_noop (opts : Options) (table : List ProviderId)
    (q : ProviderId) (fs : Fields) (p : Path) (v : Val) (fld : FieldRec)
    (hexact : fs.lookup (pathKey p) = some fld)
    (hpath : fld.path = p)
    (heq : valEq v fld.val = true) :
    callbackGo opts table q fs p v = .ok (fs, none) := by
  rw [callbackGo_exact opts table q fs p v fld hexact hpath]
  simp [heq]

/-- Concrete field for the C5 witness: holds "b", owned by provider 1. -/
def c5Fld : FieldRec :=
  { path := ["p"], ty := .str, val := .str "b", settable := true,
    provider := some 1, mapDst := none }

/-- Concrete one-entry registry for the C5 witness. -/
def c5Fs : Fields := [("p", c5Fld)]

/-- Witness for C5 at a concrete input: writing "b" over a field already
holding "b" is a no-op. -/
theorem c5_equal_value_noop_witness :
    callbackGo DefaultOptions [1] 1 c5Fs ["p"] (.str "b") =
      .ok (c5Fs, none) :=
  c5_equal_value_noop DefaultOptions [1] 1 c5Fs ["p"] (.str "b") c5Fld
    rfl rfl rfl

/-- The destination type of the C1 scenario:
`map[string]map[string]string`. -/
def c1TyMM : Ty := .mapT .str (.mapT .str .str)

/-- The hydrated Field at path "m" in the C1 scenario: a nil nested map in a
settable struct field. -/
def c1FldM : FieldRec :=
  { path := ["m"], ty := c1TyMM, val := .mapNil .str (.mapT .str .str),
    settable := true, provider := none, mapDst := none }

/-- The registry after hydration in the C1 scenario. -/
def c1Fields : Fields := [("m", c1FldM)]

/-- The Field at "m" after materialisation: the map holds its own path
segment "m" as first key (the off-by-one slice `path[len(fld.Path())-1:]`
feeds "m" to `initMap` as the parent key). -/
def c1FldM1 : FieldRec :=
  { path := ["m"], ty := c1TyMM,
    val := .mapV .str (.mapT .str .str) [("m", .mapV .str .str [])],
    settable := true, provider := none, mapDst := none }

/-- The `mapfield` registered at "m.x.y": fresh string slot, destination
reference rooted at registry key "m" descending through key "m", index key
"y" — the path segment "x" appears nowhere. -/
def c1Mapfld0 : FieldRec :=
  { path := ["m", "x", "y"], ty := .str, val := .str "",
    settable := true, provider := none, mapDst := some ("m", ["m"], "y") }

/-- The registry after materialisation in the C1 scenario. -/
def c1Fs1 : Fields := [("m.x.y", c1Mapfld0), ("m", c1FldM1)]

/-- The Field at "m" after the write lands: {"m": {"y": "v"}}. -/
def c1FldM2 : FieldRec :=
  { path := ["m"], ty := c1TyMM,
    val := .mapV .str (.mapT .str .str)
      [("m", .mapV .str .str [("y", .str "v")])],
    settable := true, provider := none, mapDst := none }

/-- The `mapfield` at "m.x.y" after the write. -/
def c1Mapfld1 : FieldRec :=
  { path := ["m", "x", "y"], ty := .str, val := .str "v",
    settable := true, provider := some 1, mapDst := some ("m", ["m"], "y") }

/-- The final registry of the C1 scenario. -/
def c1Fs2 : Fields := [("m", c1FldM2), ("m.x.y", c1Mapfld1)]

/-- C1 lookup step: "m.x.y" resolves to the ancestor Field at "m". -/
theorem c1_lookup_before :
    fieldsGetEntry c1Fields ["m", "x", "y"] = some ("m", c1FldM) := by
  have d1 : (["m", "x", "y"] : Path).dropLast = ["m", "x"] := rfl
  have d2 : (["m", "x"] : Path).dropLast = ["m"] := rfl
  have k3 : pathKey ["m", "x", "y"] = "m.x.y" := rfl
  have k2 : pathKey ["m", "x"] = "m.x" := rfl
  have k1 : pathKey ["m"] = "m" := rfl
  rw [fieldsGetEntry]
  simp only [d1]
  rw [fieldsGetEntry]
  simp only [d2]
  rw [fieldsGetEntry]
  simp only [k1, k2, k3, c1Fields, List.lookup]
  simp

/-- C1 materialisation step, inner map: the recursion allocates the inner
`map[string]string` and consumes no key. -/
theorem c1_initMap_inner :
    initMap ["x", "y"] (Val.mapNil .str .str) true =
      .ok (.mapV .str .str [], [], .str) := by
  rw [initMap]
  norm_num
  rw [initMapNonNil]
  simp

/-- C1 materialisation step, outer map: `initMap` on the sliced path
["m", "x", "y"] consumes "m" — the map's own path segment — as the parent
key and never touches "x". -/
theorem c1_initMap_outer :
    initMap ["m", "x", "y"] (Val.mapNil .str (.mapT .str .str)) true =
      .ok (.mapV .str (.mapT .str .str) [("m", .mapV .str .str [])],
          ["m"], .str) := by
  rw [initMap]
  norm_num
  rw [initMapNonNil]
  norm_num [tyZero, List.lookup]
  rw [initMap]
  norm_num
  rw [initMapNonNil]
  simp [mapIndexSet]
  simp

/-- C1 materialisation of the registry entry. -/
theorem c1_initMapField_step :
    initMapField c1Fields "m" c1FldM ["m", "x", "y"] = .ok c1Fs1 := by
  rw [initMapField]
  dsimp only [c1FldM]
  have hd : List.drop (["m"].length - 1) ["m", "x", "y"] = ["m", "x", "y"] := rfl
  rw [hd]
  simp only [c1_initMap_outer]
  rfl

/-- C1 lookup step after materialisation: exact `mapfield` match. -/
theorem c1_lookup_after :
    fieldsGetEntry c1Fs1 ["m", "x", "y"] = some ("m.x.y", c1Mapfld0) := by
  have k3 : pathKey ["m", "x", "y"] = "m.x.y" := rfl
  rw [fieldsGetEntry]
  simp only [k3, c1Fs1, List.lookup]
  simp

/-- C1 coercion step: "v" into the fresh string slot. -/
theorem c1_setValue_step : setValue .str true (.str "v") = .ok (.str "v") := by
  rw [setValue]
  rfl

/-- C1 write step: the `mapfield` write assigns the coerced slot value into
the destination map at index "y", then the root map at "m" is updated. -/
theorem c1_fieldRecSet_step :
    fieldRecSet c1Fs1 "m.x.y" c1Mapfld0 (.str "v") 1 = .ok c1Fs2 := by
  rw [fieldRecSet]
  dsimp only [c1Mapfld0]
  simp only [c1_setValue_step]
  rfl

/-- C1: for a destination field declared `map[string]map[string]string` at
path "m", a fetched write of "v" at "m.x.y" does NOT materialise
{"x": {"y": "v"}}.  `initMapField` slices the remaining path as
`path[len(fld.Path())-1:]`, so the map's own final path segment "m" becomes
the first nested key and the middle segment "x" is dropped: the destination
map ends up as {"m": {"y": "v"}}.  (The coerced value is indeed assigned
into a fresh slot before the map is indexed, and the single-level case
"m.k" is unaffected, which is why the repository's own tests pass.) -/
theorem c1_nested_map_write_wrong_key :
    callbackGo DefaultOptions [1] 1 c1Fields ["m", "x", "y"] (.str "v") =
      .ok (c1Fs2,
        some { path := ["m", "x", "y"], old := .str "", new := .str "v",
               provider := 1 }) ∧
    (c1Fs2.lookup "m").map FieldRec.val =
      some (.mapV .str (.mapT .str .str)
        [("m", .mapV .str .str [("y", .str "v")])]) ∧
    (c1Fs2.lookup "m").map FieldRec.val ≠
      some (.mapV .str (.mapT .str .str)
        [("x", .mapV .str .str [("y", .str "v")])]) := by
  refine ⟨?_, by simp [c1Fs2, c1FldM2, List.lookup], ?_⟩
  · rw [callbackGo_eq]
    simp only [c1_lookup_before]
    have hcond1 :
        (!pathEqual c1FldM.path ["m", "x", "y"] && Ty.isMapT c1FldM.ty) = true := rfl
    simp only [hcond1]
    simp only [eq_self_iff_true, if_true]
    simp only [c1_initMapField_step]
    rw [callbackGo_eq]
    simp only [c1_lookup_after]
    have hcond2 :
        (!pathEqual c1Mapfld0.path ["m", "x", "y"] && Ty.isMapT c1Mapfld0.ty) = false := rfl
    simp only [hcond2]
    norm_num
    have hval : valEq (Val.str "v") c1Mapfld0.val = false := rfl
    have hprov : c1Mapfld0.provider = none := rfl
    simp only [hval, hprov]
    norm_num
    rw [applyWrite]
    simp only [c1_fieldRecSet_step]
    have hold : c1Mapfld0.val = Val.str "" := rfl
    simp only [hold]
  · simp [c1Fs2, c1FldM2, List.lookup]

/-- Adding pairwise-distinct providers not yet in the table appends them in
order. -/
theorem providersAddAll_nodup (ps : List ProviderId) :
    ∀ t : List ProviderId, (∀ x ∈ ps, x ∉ t) → ps.Nodup →
      providersAddAll t ps = t ++ ps := by
  induction ps with
  | nil => intro t _ _; simp [providersAddAll]
  | cons p ps ih =>
      intro t hdisj hnd
      have hp : p ∉ t := hdisj p (by simp)
      have h1 : providersAdd t p = t ++ [p] := by simp [providersAdd, hp]
      simp only [providersAddAll, List.foldl_cons] at ih ⊢
      rw [h1, ih (t ++ [p]) ?_ (List.nodup_cons.mp hnd).2]
      · simp
      · intro x hx
        simp only [List.mem_append, List.mem_singleton]
        rintro (hxt | hxp)
        · exact hdisj x (List.mem_cons_of_mem _ hx) hxt
        · exact (List.nodup_cons.mp hnd).1 (hxp ▸ hx)

/-- A provider absent from the table has no rank. -/
theorem priorityFrom_not_mem (p : ProviderId) :
    ∀ (t : List ProviderId) (r : Nat), p ∉ t → priorityFrom t p r = 0 := by
  intro t
  induction t with
  | nil => intro r _; rfl
  | cons q t ih =>
      intro r h
      rw [priorityFrom,
        if_neg (fun hq => h (List.mem_cons.mpr (Or.inl hq.symm))),
        ih (r + 1) (fun hm => h (List.mem_cons_of_mem q hm))]

/-- In a duplicate-free table the i-th provider's rank is the start rank
plus i. -/
theorem priorityFrom_nth (ps : List ProviderId) (hnd : ps.Nodup) :
    ∀ (i r : Nat) (hi : i < ps.length),
      priorityFrom ps (ps.get ⟨i, hi⟩) r = r + i := by
  induction ps with
  | nil => intro i r hi; exact absurd hi (by simp)
  | cons p ps ih =>
      intro i r hi
      cases i with
      | zero => rw [priorityFrom]; simp
      | succ i =>
          rw [priorityFrom]
          have hpn : p ∉ ps := (List.nodup_cons.mp hnd).1
          have hin : i < ps.length := by
            simpa [Nat.succ_lt_succ_iff] using hi
          have hne : p ≠ (p :: ps).get ⟨i + 1, hi⟩ := by
            have hg0 : (p :: ps).get ⟨i + 1, hi⟩ = ps.get ⟨i, hin⟩ := by simp
            rw [hg0]
            intro h
            apply hpn
            rw [h]
            exact List.get_mem ps i hin
          rw [if_neg hne]
          have hg : (p :: ps).get ⟨i + 1, hi⟩ = ps.get ⟨i, hin⟩ := by simp
          rw [hg, ih (List.nodup_cons.mp hnd).2 i (r + 1) hin]
          omega

/-- C3: for every sequence of distinct providers added to an empty priority
table, the i-th (0-based) provider receives priority i + 1 (the Nth distinct
provider receives priority N); re-adding an already-present provider leaves
the table — and hence every priority — unchanged; and a provider never
added has priority 0. -/
theorem c3_priority_first_add_order (ps : List ProviderId) (hnd : ps.Nodup) :
    (∀ (i : Nat) (hi : i < ps.length),
      providersPriority (providersAddAll [] ps) (ps.get ⟨i, hi⟩) = i + 1) ∧
    (∀ (t : List ProviderId) (q : ProviderId), q ∈ t →
      providersAdd t q = t) ∧
    (∀ q : ProviderId, q ∉ ps →
      providersPriority (providersAddAll [] ps) q = 0) := by
  have hall : providersAddAll [] ps = ps := by
    have := providersAddAll_nodup ps [] (by simp) hnd
    simpa using this
  refine ⟨?_, ?_, ?_⟩
  · intro i hi
    rw [hall, providersPriority, priorityFrom_nth ps hnd i 1 hi]
    omega
  · intro t q hq
    simp [providersAdd, hq]
  · intro q hq
    rw [hall, providersPriority, priorityFrom_not_mem q ps 1 hq]

/-- Witness for C3 at a concrete input: adding providers 5 then 9 gives 9
priority 2; re-adding 9 changes nothing; provider 7 has priority 0. -/
theorem c3_priority_first_add_order_witness :
    providersPriority (providersAddAll [] [5, 9]) 9 = 2 ∧
    providersAdd [5, 9] 9 = [5, 9] ∧
    providersPriority (providersAddAll [] [5, 9]) 7 = 0 := by
  obtain ⟨h1, h2, h3⟩ := c3_priority_first_add_order [5, 9] (by decide)
  exact ⟨h1 1 (by decide), h2 [5, 9] 9 (by decide), h3 7 (by decide)⟩

/-- The observable effect of `setValue` on a destination slot: Go mutates
the slot in place, writing it only at the very end of a successful coercion,
so the slot holds the new value exactly when the call returned no error. -/
def slotAssign (ty : Ty) (settable : Bool) (cur : Val) (tv : Val) :
    Val × Option FErr :=
  match setValue ty settable tv with
  | .ok v => (v, none)
  | .error e => (cur, some e)

/-- `setValue` on a string-kind slot dispatches to `setValueToString`. -/
theorem setValue_str (c : Bool) (tv : Val) :
    setValue .str c tv = setValueToString c tv := by
  rw [setValue]

/-- `setValue` on a slice-kind slot dispatches to `setValueToSlice`. -/
theorem setValue_slice (elem : Ty) (c : Bool) (tv : Val) :
    setValue (.sliceT elem) c tv = setValueToSlice elem c tv := by
  rw [setValue]

/-- A non-sequence input to `setValueToSlice` yields `ErrSetInvalidType`. -/
theorem setValueToSlice_not_slice (elem : Ty) (tv : Val)
    (hns : ∀ t xs, tv ≠ Val.sliceV t xs) :
    setValueToSlice elem true tv =
      .error (.wrap .setInvalidType "expected array or slice") := by
  rw [setValueToSlice.eq_def]
  cases tv
  case sliceV t xs => exact absurd rfl (hns t xs)
  all_goals rfl

/-- The element loop fails exactly when some element fails to coerce. -/
theorem setSliceElems_error_iff (elem : Ty) (xs : List Val) :
    (∃ e, setSliceElems elem xs = .error e) ↔
      ∃ x ∈ xs, ∃ e, setValue elem true x = .error e := by
  induction xs with
  | nil =>
      rw [setSliceElems]
      simp
  | cons x xs ih =>
      rw [setSliceElems]
      cases hsv : setValue elem true x with
      | error e => simp [hsv]
      | ok y =>
          cases hrest : setSliceElems elem xs with
          | error e =>
              simp only [hsv]
              constructor
              · intro _
                have hx : ∃ e, setSliceElems elem xs = .error e := ⟨e, hrest⟩
                obtain ⟨z, hz, he⟩ := ih.mp hx
                exact ⟨z, List.mem_cons_of_mem x hz, he⟩
              · intro _
                exact ⟨e, by simp [hrest]⟩
          | ok ys =>
              simp only [hsv, hrest]
              constructor
              · rintro ⟨e, he⟩
                exact absurd he (by simp)
              · rintro ⟨z, hz, e, he⟩
                rcases List.mem_cons.mp hz with hzx | hzs
                · rw [hzx] at he
                  rw [he] at hsv
                  exact absurd hsv (by simp)
                · have : ∃ e, setSliceElems elem xs = .error e :=
                    ih.mpr ⟨z, hzs, e, he⟩
                  obtain ⟨e', he'⟩ := this
                  rw [he'] at hrest
                  exact absurd hrest (by simp)

/-- C6: coercion into a sequence-typed slot is all-or-nothing.  A non-
sequence input fails with `ErrSetInvalidType` and leaves the slot holding
exactly its previous value; if coercion of any element fails, the whole
assignment fails with that element's typed error and the slot is likewise
unchanged; only when the element loop succeeds does the slot receive the new
sequence of coerced elements. -/
theorem c6_slice_all_or_nothing (elem : Ty) (cur tv : Val) :
    ((∀ t xs, tv ≠ Val.sliceV t xs) →
      ∃ e, slotAssign (.sliceT elem) true cur tv = (cur, some e) ∧
        errIs e .setInvalidType = true) ∧
    (∀ t xs, tv = Val.sliceV t xs →
      ((∃ x ∈ xs, ∃ e, setValue elem true x = .error e) →
        ∃ e, slotAssign (.sliceT elem) true cur tv = (cur, some e)) ∧
      (∀ ys, setSliceElems elem xs = .ok ys →
        slotAssign (.sliceT elem) true cur tv = (.sliceV elem ys, none))) := by
  constructor
  · intro hns
    refine ⟨.wrap .setInvalidType "expected array or slice", ?_, by decide⟩
    rw [slotAssign, setValue_slice, setValueToSlice_not_slice elem tv hns]
  · intro t xs htv
    subst htv
    constructor
    · intro hfail
      obtain ⟨e, he⟩ := (setSliceElems_error_iff elem xs).mpr hfail
      refine ⟨e, ?_⟩
      rw [slotAssign, setValue_slice, setValueToSlice]
      simp [he]
    · intro ys hys
      rw [slotAssign, setValue_slice, setValueToSlice]
      simp [hys]

/-- Witness for C6 at a concrete input: coercing ["1", "x"] into an int64
slice fails ("x" does not parse) and the slot keeps its previous value; a
plain string input fails with `ErrSetInvalidType`. -/
theorem c6_slice_all_or_nothing_witness :
    (∃ e, slotAssign (.sliceT (.intT 64)) true (.sliceV (.intT 64) [])
        (.sliceV .str [.str "1", .str "x"]) =
          (.sliceV (.intT 64) [], some e)) ∧
    (∃ e, slotAssign (.sliceT (.intT 64)) true (.sliceV (.intT 64) [])
        (.str "oops") = (.sliceV (.intT 64) [], some e) ∧
        errIs e .setInvalidType = true) := by
  constructor
  · exact ((c6_slice_all_or_nothing (.intT 64) (.sliceV (.intT 64) [])
        (.sliceV .str [.str "1", .str "x"])).2 .str
        [.str "1", .str "x"] rfl).1
      ⟨.str "x", by simp,
        .wrap .setInvalidValue "could not convert to int64",
        by rw [setValue]; rfl⟩
  · exact (c6_slice_all_or_nothing (.intT 64) (.sliceV (.intT 64) [])
      (.str "oops")).1 (fun t xs h => Val.noConfusion h)

/-- C9: a text-typed (string-kind) destination slot accepts text unchanged,
booleans formatted "true"/"false", and integers of every width formatted
base-10, plus any value exposing the display-text (`fmt.Stringer`)
capability; every other value — in particular a floating-point number, the
only "numeric" input the switch does not accept — fails with
`ErrSetInvalidType` and leaves the destination slot unchanged. -/
theorem c9_string_destination (cur : Val) :
    (∀ s, slotAssign .str true cur (.str s) = (.str s, none)) ∧
    (∀ b, slotAssign .str true cur (.boolV b) =
      (.str (if b then "true" else "false"), none)) ∧
    (∀ bits v, slotAssign .str true cur (.intV bits v) =
      (.str (formatInt v), none)) ∧
    (∀ bits v, slotAssign .str true cur (.uintV bits v) =
      (.str (toString v), none)) ∧
    (∀ s, slotAssign .str true cur (.stringer s) = (.str s, none)) ∧
    (∀ tv, (∀ s, tv ≠ .str s) → (∀ b, tv ≠ .boolV b) →
      (∀ bits v, tv ≠ .intV bits v) → (∀ bits v, tv ≠ .uintV bits v) →
      (∀ s, tv ≠ .stringer s) →
      ∃ e, slotAssign .str true cur tv = (cur, some e) ∧
        errIs e .setInvalidType = true) := by
  refine ⟨?_, ?_, ?_, ?_, ?_, ?_⟩
  · intro s; rw [slotAssign, setValue_str]; rfl
  · intro b; rw [slotAssign, setValue_str]; cases b <;> rfl
  · intro bits v; rw [slotAssign, setValue_str]; rfl
  · intro bits v; rw [slotAssign, setValue_str]; rfl
  · intro s; rw [slotAssign, setValue_str]; rfl
  · intro tv h1 h2 h3 h4 h5
    refine ⟨.wrap .setInvalidType "cannot set to kind string", ?_, by decide⟩
    rw [slotAssign, setValue_str]
    cases tv
    case str s => exact absurd rfl (h1 s)
    case boolV b => exact absurd rfl (h2 b)
    case intV bits v => exact absurd rfl (h3 bits v)
    case uintV bits v => exact absurd rfl (h4 bits v)
    case stringer s => exact absurd rfl (h5 s)
    all_goals rfl

/-- Witness for C9 at a concrete input: a floating-point value (numeric,
non-integer) into a string slot holding "keep" fails with
`ErrSetInvalidType` and the slot keeps "keep"; "7" as int64 is accepted as
the text "7". -/
theorem c9_string_destination_witness :
    (∃ e, slotAssign .str true (.str "keep") (.floatV "1e309") =
      (.str "keep", some e) ∧ errIs e .setInvalidType = true) ∧
    slotAssign .str true (.str "keep") (.intV 64 7) = (.str "7", none) := by
  constructor
  · exact (c9_string_destination (.str "keep")).2.2.2.2.2 (.floatV "1e309")
      (fun s h => Val.noConfusion h) (fun b h => Val.noConfusion h)
      (fun bits v h => Val.noConfusion h) (fun bits v h => Val.noConfusion h)
      (fun s h => Val.noConfusion h)
  · exact (c9_string_destination (.str "keep")).2.2.1 64 7

mutual

/-- Reflexivity of the modelled value equality. -/
theorem valEq_refl : ∀ v : Val, valEq v v = true
  | .str s => by simp [valEq]
  | .boolV b => by simp [valEq]
  | .intV bits v => by simp [valEq]
  | .uintV bits v => by simp [valEq]
  | .floatV lit => by simp [valEq]
  | .sliceV t xs => by rw [valEq]; simp [valEqList_refl xs]
  | .mapNil k e => by simp [valEq]
  | .mapV k e es => by rw [valEq]; simp [valEqEntries_refl es]
  | .stringer s => by simp [valEq]
  | .otherV => by simp [valEq]

/-- Reflexivity of element-list equality. -/
theorem valEqList_refl : ∀ xs : List Val, valEqList xs xs = true
  | [] => by rw [valEqList]
  | x :: xs => by rw [valEqList]; simp [valEq_refl x, valEqList_refl xs]

/-- Reflexivity of entry-list equality. -/
theorem valEqEntries_refl : ∀ es : List (String × Val), valEqEntries es es = true
  | [] => by rw [valEqEntries]
  | (k, v) :: es => by
      rw [valEqEntries]; simp [valEq_refl v, valEqEntries_refl es]

end

/-- Reflexivity of structural error equality. -/
theorem ferrEq_refl : ∀ e : FErr, ferrEq e e = true
  | .destinationTypeInvalid => rfl
  | .destinationNil => rfl
  | .destinationNotPtr => rfl
  | .structTagNotFound => rfl
  | .invalidPath => rfl
  | .fieldNotFound => rfl
  | .expectedMap => rfl
  | .invalidMapKeyType => rfl
  | .notAddressable => rfl
  | .notSetable => rfl
  | .setInvalidType => rfl
  | .setInvalidValue => rfl
  | .setOverflow => rfl
  | .canceled => rfl
  | .nonErrPanic v => by rw [ferrEq]; exact valEq_refl v
  | .wrap a m => by rw [ferrEq]; simp [ferrEq_refl a]

/-- `errors.Is(e, e)` holds. -/
theorem errIs_refl (e : FErr) : errIs e e = true := by
  rw [errIs.eq_def]
  simp [ferrEq_refl e]

/-- `errors.Is(fmt.Errorf("%w: ...", e, ...), e)` holds: a wrapped error
matches what it wraps. -/
theorem errIs_wrap_self (e : FErr) (m : String) : errIs (.wrap e m) e = true := by
  rw [errIs.eq_def]
  simp [errIs_refl e]

/-- A panic value raised by provider code: either carries error semantics or
an arbitrary non-error value. -/
inductive PanicVal where
  | errVal (e : FErr)
  | nonErrVal (v : Val)

/-- The outcome of one `provider.Values` call: a normal return (the (path,
value) pairs pushed through the callback in order, and the provider's own
return value once the pairs are exhausted), or a fault raised by the
provider code. -/
inductive ProviderRun where
  | runs (items : List (Path × Val)) (ret : Option FErr)
  | panics (pv : PanicVal)

/-- Static description of a provider's behaviour: its value production, and
its optional change-notification capability (`NotifyProvider`), whose
`Notify` call may fail. -/
structure ProviderSpec where
  run : ProviderRun
  notifies : Bool
  notifyErr : Option FErr

/-- The mutable state of a `Fido` value: the provider set (which is also the
priority table: first-add order), the providers being watched, the path
registry, the options, and the batches published to subscribers so far. -/
structure FidoM where
  providers : List ProviderId
  watching : List ProviderId
  fields : Fields
  options : Options
  published : List (List FieldUpdate)

/-- An execution context: `context.Background()` is never done. -/
inductive Ctx where
  | background
  | cancel

/-- `ctx.Done()` readiness. -/
def Ctx.done : Ctx → Bool
  | .background => false
  | .cancel => true

/-- A well-behaved provider propagates the first callback error and stops
(the `TestProvider` / `inmemory` contract): run the callback over the pairs,
collecting the update batch pumped onto the updates channel. -/
def runItems (opts : Options) (table : List ProviderId) (prov : ProviderId) :
    List (Path × Val) → Fields → List FieldUpdate →
      Fields × List FieldUpdate × Option FErr
  | [], fs, ups => (fs, ups, none)
  | (p, v) :: rest, fs, ups =>
      match callbackGo opts table prov fs p v with
      | .error e => (fs, ups, some e)
      | .ok (fs', upd) => runItems opts table prov rest fs' (ups ++ upd.toList)

/-- `Fido.fetch`: the provider's value-production call is guarded by a
deferred `recover`; a fault carrying an error yields that error wrapped, any
other fault yields a wrapped `NonErrPanic` preserving the raised value (the
faulting call is modelled as leaving the state untouched).  On a normal
round the update batch is published only when no error occurred. -/
def goFetch (env : ProviderId → ProviderSpec) (f : FidoM) (prov : ProviderId) :
    FidoM × Option FErr :=
  match (env prov).run with
  | .panics (.errVal e) => (f, some (.wrap e "recovered from panic"))
  | .panics (.nonErrVal v) =>
      (f, some (.wrap (.nonErrPanic v) "recovered from panic"))
  | .runs items ret =>
      match runItems f.options f.providers prov items f.fields [] with
      | (fs', ups, cbErr) =>
          let f' := { f with fields := fs' }
          match cbErr with
          | some e => (f', some e)
          | none =>
              match ret with
              | some e => (f', some e)
              | none => ({ f' with published := f'.published ++ [ups] }, none)

/-- The loop of `WatchWithContext`: start one watcher per not-yet-watched
provider with the `NotifyProvider` capability; a failing `Notify` aborts
with a wrapped error. -/
def watchLoop (env : ProviderId → ProviderSpec) :
    List ProviderId → FidoM → FidoM × Option FErr
  | [], f => (f, none)
  | p :: rest, f =>
      if (env p).notifies && !(f.watching.contains p) then
        match (env p).notifyErr with
        | some e => (f, some (.wrap e "failed to start provider notifier"))
        | none => watchLoop env rest { f with watching := f.watching ++ [p] }
      else watchLoop env rest f

/-- `WatchWithContext`: add the given providers, then start watchers over
the provider set. -/
def goWatchWithContext (env : ProviderId → ProviderSpec) (f : FidoM)
    (ps : List ProviderId) : FidoM × Option FErr :=
  let f' := { f with providers := providersAddAll f.providers ps }
  watchLoop env f'.providers f'

/-- The loop of `FetchWithContext` over the provider set: check cancellation
before each provider, start watchers when AutoWatch is on, then fetch. -/
def fetchLoop (env : ProviderId → ProviderSpec) (ctx : Ctx) :
    List ProviderId → FidoM → FidoM × Option FErr
  | [], f => (f, none)
  | p :: rest, f =>
      if ctx.done then (f, some .canceled)
      else
        match (if f.options.autoWatch then goWatchWithContext env f []
               else (f, none)) with
        | (f1, some e) => (f1, some e)
        | (f1, none) =>
            match goFetch env f1 p with
            | (f2, some e) => (f2, some e)
            | (f2, none) => fetchLoop env ctx rest f2

/-- `FetchWithContext`: add the given providers, then run one fetch round
per provider in the set (Go iterates the provider map in unspecified order;
the model iterates in first-add order). -/
def goFetchWithContext (env : ProviderId → ProviderSpec) (ctx : Ctx)
    (f : FidoM) (ps : List ProviderId) : FidoM × Option FErr :=
  let f' := { f with providers := providersAddAll f.providers ps }
  fetchLoop env ctx f'.providers f'

/-- `Watch` from `fido.go`:
`func (f *Fido) Watch(providers ...Provider) error {
   return f.FetchWithContext(context.Background()) }` —
the `providers` parameter is never used. -/
def goWatch (env : ProviderId → ProviderSpec) (f : FidoM)
    (ps : List ProviderId) : FidoM × Option FErr :=
  goFetchWithContext env .background f []

/-- C7: a provider whose value-production call raises a fault never
propagates it out of `fetch`: a fault carrying an error yields exactly that
error wrapped (so `errors.Is` against the original error holds), and a fault
carrying a non-error value yields the distinguishable `NonErrPanic` carrier
wrapped, preserving the original raised value. -/
theorem c7_fetch_recovers_faults (env : ProviderId → ProviderSpec)
    (f : FidoM) (prov : ProviderId) :
    (∀ e, (env prov).run = .panics (.errVal e) →
      goFetch env f prov = (f, some (.wrap e "recovered from panic")) ∧
        errIs (.wrap e "recovered from panic") e = true) ∧
    (∀ v, (env prov).run = .panics (.nonErrVal v) →
      goFetch env f prov =
        (f, some (.wrap (.nonErrPanic v) "recovered from panic"))) := by
  constructor
  · intro e he
    constructor
    · rw [goFetch, he]
    · exact errIs_wrap_self e "recovered from panic"
  · intro v hv
    rw [goFetch, hv]

/-- Witness for C7 at a concrete input: provider 1 panics with the sentinel
`ErrFieldNotFound`; provider 2 panics with the plain value "boom". -/
theorem c7_fetch_recovers_faults_witness :
    (goFetch
        (fun p => if p = 1 then
            { run := .panics (.errVal .fieldNotFound), notifies := false,
              notifyErr := none }
          else
            { run := .panics (.nonErrVal (.str "boom")), notifies := false,
              notifyErr := none })
        { providers := [1, 2], watching := [], fields := [],
          options := DefaultOptions, published := [] } 1 =
      ({ providers := [1, 2], watching := [], fields := [],
         options := DefaultOptions, published := [] },
        some (.wrap .fieldNotFound "recovered from panic")) ∧
      errIs (.wrap .fieldNotFound "recovered from panic") .fieldNotFound = true) ∧
    goFetch
        (fun p => if p = 1 then
            { run := .panics (.errVal .fieldNotFound), notifies := false,
              notifyErr := none }
          else
            { run := .panics (.nonErrVal (.str "boom")), notifies := false,
              notifyErr := none })
        { providers := [1, 2], watching := [], fields := [],
          options := DefaultOptions, published := [] } 2 =
      ({ providers := [1, 2], watching := [], fields := [],
         options := DefaultOptions, published := [] },
        some (.wrap (.nonErrPanic (.str "boom")) "recovered from panic")) := by
  constructor
  · exact (c7_fetch_recovers_faults _ _ 1).1 .fieldNotFound rfl
  · exact (c7_fetch_recovers_faults _ _ 2).2 (.str "boom") rfl

/-- A fetch round touches only the registry and the published batches: the
provider set (priority table), the watch set and the options are unchanged. -/
theorem goFetch_frame (env : ProviderId → ProviderSpec) (f : FidoM)
    (p : ProviderId) :
    (goFetch env f p).1.providers = f.providers ∧
    (goFetch env f p).1.watching = f.watching ∧
    (goFetch env f p).1.options = f.options := by
  rw [goFetch]
  cases (env p).run with
  | panics pv => cases pv <;> exact ⟨rfl, rfl, rfl⟩
  | runs items ret =>
      rcases hri : runItems f.options f.providers p items f.fields [] with
        ⟨fs', ups, cbErr⟩
      simp only [hri]
      cases cbErr <;> cases ret <;> exact ⟨rfl, rfl, rfl⟩

/-- The watcher loop never changes the provider set, options, registry or
published batches, and only ever watches providers from the list it
iterates. -/
theorem watchLoop_frame (env : ProviderId → ProviderSpec) :
    ∀ (L : List ProviderId) (f : FidoM),
      (watchLoop env L f).1.providers = f.providers ∧
      (watchLoop env L f).1.options = f.options ∧
      (watchLoop env L f).1.fields = f.fields ∧
      (watchLoop env L f).1.published = f.published ∧
      ∀ q, q ∈ (watchLoop env L f).1.watching → q ∈ f.watching ∨ q ∈ L := by
  intro L
  induction L with
  | nil =>
      intro f
      exact ⟨rfl, rfl, rfl, rfl, fun q hq => Or.inl hq⟩
  | cons p rest ih =>
      intro f
      rw [watchLoop]
      cases hn : (env p).notifies && !(f.watching.contains p) with
      | false =>
          simp only [Bool.false_eq_true, if_false]
          obtain ⟨h1, h2, h3, h4, h5⟩ := ih f
          exact ⟨h1, h2, h3, h4, fun q hq =>
            (h5 q hq).elim Or.inl (fun h => Or.inr (List.mem_cons_of_mem p h))⟩
      | true =>
          simp only [if_true]
          cases hne : (env p).notifyErr with
          | some e => exact ⟨rfl, rfl, rfl, rfl, fun q hq => Or.inl hq⟩
          | none =>
              obtain ⟨h1, h2, h3, h4, h5⟩ :=
                ih { f with watching := f.watching ++ [p] }
              refine ⟨h1, h2, h3, h4, fun q hq => ?_⟩
              rcases h5 q hq with hw | hr
              · rcases List.mem_append.mp hw with hw' | hp
                · exact Or.inl hw'
                · exact Or.inr (by
                    rw [List.mem_singleton.mp hp]
                    exact List.mem_cons_self p rest)
              · exact Or.inr (List.mem_cons_of_mem p hr)

/-- The fetch loop keeps the provider set fixed and only ever starts
watchers for providers in that set. -/
theorem fetchLoop_frame (env : ProviderId → ProviderSpec) (ctx : Ctx) :
    ∀ (L : List ProviderId) (f : FidoM),
      (fetchLoop env ctx L f).1.providers = f.providers ∧
      (∀ q, q ∈ (fetchLoop env ctx L f).1.watching →
        q ∈ f.watching ∨ q ∈ f.providers) := by
  intro L
  induction L with
  | nil => intro f; exact ⟨rfl, fun q hq => Or.inl hq⟩
  | cons p rest ih =>
      intro f
      rw [fetchLoop]
      cases hc : ctx.done with
      | true => exact ⟨rfl, fun q hq => Or.inl hq⟩
      | false =>
          simp only [Bool.false_eq_true, if_false]
          cases haw : f.options.autoWatch with
          | false =>
              simp only [Bool.false_eq_true, if_false]
              cases hgf : goFetch env f p with
              | mk f2 err =>
                  obtain ⟨hp2, hw2, _⟩ := goFetch_frame env f p
                  rw [hgf] at hp2 hw2
                  cases err with
                  | some e => exact ⟨hp2, fun q hq => hw2 ▸ Or.inl hq⟩
                  | none =>
                      obtain ⟨hpr, hwr⟩ := ih f2
                      refine ⟨hpr.trans hp2, fun q hq => ?_⟩
                      rcases hwr q hq with hw | hr
                      · rw [hw2] at hw
                        exact Or.inl hw
                      · rw [hp2] at hr
                        exact Or.inr hr
          | true =>
              simp only [if_true]
              cases hww : goWatchWithContext env f [] with
              | mk f1 werr =>
                  have hww' : watchLoop env f.providers f = (f1, werr) := hww
                  obtain ⟨h1, h2, _, _, h5⟩ := watchLoop_frame env f.providers f
                  rw [hww'] at h1 h2 h5
                  cases werr with
                  | some e =>
                      exact ⟨h1, fun q hq => (h5 q hq).elim Or.inl Or.inr⟩
                  | none =>
                      cases hgf : goFetch env f1 p with
                      | mk f2 err =>
                          obtain ⟨hp2, hw2, _⟩ := goFetch_frame env f1 p
                          rw [hgf] at hp2 hw2
                          simp only [hgf]
                          cases err with
                          | some e =>
                              refine ⟨hp2.trans h1, fun q hq => ?_⟩
                              rw [hw2] at hq
                              exact (h5 q hq).elim Or.inl Or.inr
                          | none =>
                              obtain ⟨hpr, hwr⟩ := ih f2
                              refine ⟨(hpr.trans hp2).trans h1, fun q hq => ?_⟩
                              rcases hwr q hq with hw | hr
                              · rw [hw2] at hw
                                exact (h5 q hw).elim Or.inl Or.inr
                              · rw [hp2, h1] at hr
                                exact Or.inr hr

/-- C10: `Watch` discards its provider arguments: it is literally a full
fetch with a background context over no new providers, its result is
independent of the arguments, the provider set afterwards is exactly the
set from before the call (the arguments are never registered), and any
provider being watched afterwards was already watched or was already in the
provider set beforehand (no worker is started for the arguments). -/
theorem c10_watch_discards_arguments (env : ProviderId → ProviderSpec)
    (f : FidoM) (ps : List ProviderId) :
    goWatch env f ps = goFetchWithContext env .background f [] ∧
    goWatch env f ps = goWatch env f [] ∧
    (goWatch env f ps).1.providers = f.providers ∧
    (∀ q, q ∈ (goWatch env f ps).1.watching →
      q ∈ f.watching ∨ q ∈ f.providers) := by
  refine ⟨rfl, rfl, ?_, ?_⟩
  · exact (fetchLoop_frame env .background f.providers f).1
  · exact (fetchLoop_frame env .background f.providers f).2

/-- The declared shape of a destination struct field: a leaf slot of some
kind, or a nested aggregate; each struct field carries its raw struct tag
when one is present (`LookupTag` fails with `ErrStructTagNotFound` when the
tag is absent). -/
inductive FTy where
  | leaf (t : Ty)
  | strukt (fields : List (Option String × FTy))

/-- `Tag.Name` from `tag.go`: the first comma-separated component of the
raw tag (`strings.Split(v, ",")[0]`) is the path segment name. -/
def tagName (raw : String) : String :=
  String.mk (raw.data.takeWhile (fun c => c != ','))

mutual

/-- `Fido.hydrate` for a value below the root: a non-struct value registers
a Field for the current path; a struct recurses over its fields.  The pair
carries the registry built so far together with `hydrate`'s error, because
the caller retains the registry even when an error is returned. -/
def hydrateVal (opts : Options) : Path → FTy → Fields → Fields × Option FErr
  | p, .leaf t, fs =>
      (fieldsSet fs p
        { path := p, ty := t, val := tyZero t, settable := true,
          provider := none, mapDst := none }, none)
  | p, .strukt fields, fs => hydrateFields opts p fields fs

/-- The field loop of `Fido.hydrate`: a field without the configured tag is
an error when `ErrorOnMissingTag` is set and is skipped otherwise; a tagged
field is hydrated at the parent path extended with the tag's name, and any
error is wrapped and aborts the loop — fields already registered stay in
the registry. -/
def hydrateFields (opts : Options) :
    Path → List (Option String × FTy) → Fields → Fields × Option FErr
  | _, [], fs => (fs, none)
  | p, (tag, fty) :: rest, fs =>
      match tag with
      | none =>
          if opts.errorOnMissingTag then
            (fs, some (.wrap .structTagNotFound "failed parse struct tag"))
          else hydrateFields opts p rest fs
      | some raw =>
          match hydrateVal opts (p ++ [tagName raw]) fty fs with
          | (fs', none) => hydrateFields opts p rest fs'
          | (fs', some e) => (fs', some (.wrap e "failed parse struct tag"))

end

/-- The shapes a destination argument can take, as discriminated by the
root checks of `Fido.hydrate` (`reflect.ValueOf(dst)`). -/
inductive Dest where
  | invalid
  | notPtr (kind : String)
  | nilPtr
  | ptrToNonStruct (kind : String)
  | ptrToStruct (fields : List (Option String × FTy))

/-- `New` from `fido.go`: builds a `Fido` with an empty registry, applies
the options, and returns the `Fido` together with `hydrate`'s error — it
returns the constructed value even when hydration fails, so whatever the
hydrator registered before failing is retained on the returned handle. -/
def goNew (dst : Dest) (opts : Options) : Fields × Option FErr :=
  match dst with
  | .invalid => ([], some .destinationTypeInvalid)
  | .notPtr kind => ([], some (.wrap .destinationNotPtr kind))
  | .nilPtr => ([], some .destinationNil)
  | .ptrToNonStruct kind => ([], some (.wrap .destinationTypeInvalid kind))
  | .ptrToStruct fields => hydrateFields opts [] fields []

/-- Evaluation of `New` on a struct with a tagged field "a" followed by an
untagged field, under the default options (`ErrorOnMissingTag` set): the
error is returned AND the Field registered at "a" stays in the registry. -/
theorem goNew_missing_tag_eval :
    goNew (.ptrToStruct [(some "a", .leaf .str), (none, .leaf .str)])
        DefaultOptions =
      ([("a", { path := ["a"], ty := .str, val := .str "", settable := true,
                provider := none, mapDst := none })],
        some (.wrap .structTagNotFound "failed parse struct tag")) := by
  have h1 : hydrateVal DefaultOptions ["a"] (.leaf .str) [] =
      ([("a", { path := ["a"], ty := .str, val := .str "", settable := true,
                provider := none, mapDst := none })], none) := by
    rw [hydrateVal]
    rfl
  have h2 : hydrateFields DefaultOptions [] [(none, FTy.leaf .str)]
      [("a", { path := ["a"], ty := .str, val := .str "", settable := true,
               provider := none, mapDst := none })] =
      ([("a", { path := ["a"], ty := .str, val := .str "", settable := true,
                provider := none, mapDst := none })],
        some (.wrap .structTagNotFound "failed parse struct tag")) := by
    rw [hydrateFields]
    rfl
  rw [goNew, hydrateFields]
  have htn : tagName "a" = "a" := rfl
  rw [htn]
  simp only [List.nil_append]
  rw [h1]
  exact h2

/-- C8 counterexample: a destination struct with a tagged string field "a"
followed by an untagged field, hydrated with the default options
(`ErrorOnMissingTag` set), makes `New` fail with a structural error
(`ErrStructTagNotFound`) — yet the Field registered at "a" before the
failing field REMAINS in the returned registry, contradicting the claim
that no partial path registry is retained. -/
theorem c8_partial_registry_counterexample :
    ∃ e, (goNew (.ptrToStruct [(some "a", .leaf .str), (none, .leaf .str)])
            DefaultOptions).2 = some e ∧
      errIs e .structTagNotFound = true ∧
      (goNew (.ptrToStruct [(some "a", .leaf .str), (none, .leaf .str)])
          DefaultOptions).1.lookup "a" =
        some { path := ["a"], ty := .str, val := .str "", settable := true,
               provider := none, mapDst := none } := by
  rw [goNew_missing_tag_eval]
  exact ⟨.wrap .structTagNotFound "failed parse struct tag", rfl, by decide, rfl⟩

/-- C8 amended: a structural failure at hydrate time makes construction
return the error; when the destination's root shape itself is invalid
(invalid value, non-pointer, nil pointer, pointer to a non-struct) nothing
has been registered and the returned registry is empty, but when hydration
fails at a field (missing tag with `ErrorOnMissingTag` set), the Fields
registered before the failing field are retained on the returned handle. -/
theorem c8_structural_error_registry (opts : Options) (kind : String) :
    goNew .invalid opts = ([], some .destinationTypeInvalid) ∧
    goNew (.notPtr kind) opts = ([], some (.wrap .destinationNotPtr kind)) ∧
    goNew .nilPtr opts = ([], some .destinationNil) ∧
    goNew (.ptrToNonStruct kind) opts =
      ([], some (.wrap .destinationTypeInvalid kind)) ∧
    (goNew (.ptrToStruct [(some "a", .leaf .str), (none, .leaf .str)])
        DefaultOptions).2.isSome = true ∧
    ((goNew (.ptrToStruct [(some "a", .leaf .str), (none, .leaf .str)])
        DefaultOptions).1.lookup "a").isSome = true := by
  refine ⟨rfl, rfl, rfl, rfl, ?_, ?_⟩
  all_goals
    rw [goNew_missing_tag_eval]
    rfl

end FidoSpec
